import Mathlib

/-!
# Verification of the hyperparameter-optimization module of ludwig

A shallow embedding of the definitions in `ludwig/utils/hyperopt_utils.py`:
the parameter-grid functions, the search-strategy state machine
(`HyperoptStrategy.sample_batch` and the concrete strategies' shared
`samples` / `sampled_so_far` counter logic), the `GridStrategy` cross-product
enumeration, result sorting, the GPU-slot queue discipline of
`ParallelExecutor._train_and_eval_model_gpu`, the per-device memory-limit
computation of `ParallelExecutor.execute`, the `get_available_gpu_memory`
subprocess wrapper, the `substitute_parameters` configuration rewriting, and
the dispatch loop of `ParallelExecutor.execute`.

Python floats are modeled as exact rationals (`ℚ`), Python ints as `ℤ`/`ℕ`,
Python dicts as insertion-ordered association lists, and raised exceptions as
`Option`/`Except` failure values.
-/

/-- The search goal of a strategy: `MINIMIZE` or `MAXIMIZE`
(`assert goal in [MINIMIZE, MAXIMIZE]` in `HyperoptStrategy.__init__`). -/
inductive SearchGoal where
  | minimize
  | maximize
deriving DecidableEq

/-- Python `int(...)` / numpy `astype(int)` conversion of a real value:
truncation toward zero (the numerator T-divided by the positive
denominator). -/
def pytrunc (q : ℚ) : ℤ :=
  q.num.tdiv q.den

/-- `np.linspace(low, high, num=n)` over exact rationals: `n` evenly spaced
values from `low` to `high` inclusive (`[low]` when `n = 1`, `[]` when
`n = 0`). -/
def linspace (low high : ℚ) (n : ℕ) : List ℚ :=
  if n ≤ 1 then (List.range n).map (fun _ => low)
  else (List.range n).map (fun i : ℕ => low + (i : ℚ) * (high - low) / ((n : ℚ) - 1))

/-- `int_grid_function(range, steps)` (lines 46-52): `steps` defaults to
`high - low + 1`; the result is `np.linspace(low, high, num=steps, dtype=int)`,
i.e. the truncations of `steps` evenly spaced rationals. A negative effective
`steps` makes `np.linspace` raise `ValueError`, modeled as `none`. -/
def int_grid_function (low high : ℤ) (steps : Option ℤ) : Option (List ℤ) :=
  let n : ℤ := steps.getD (high - low + 1)
  if n < 0 then none
  else some ((linspace (low : ℚ) (high : ℚ) n.toNat).map pytrunc)

/-- A list of integers is evenly spaced: all successive differences are
equal. -/
def evenlySpaced : List ℤ → Bool
  | a :: b :: c :: rest => decide (b - a = c - b) && evenlySpaced (b :: c :: rest)
  | _ => true

/-- The state shared by the concrete strategies (`GridStrategy.sample`,
`RandomStrategy.sample` and, with its pre-determined suggestions abstracted
into a list, `PySOTStrategy`): a fixed list `samples` of parameter
configurations and a cursor `sampled_so_far`. -/
structure StrategyState (α : Type) where
  samples : List α
  sampled_so_far : ℕ
deriving DecidableEq

namespace StrategyState

/-- `sample()`: returns `samples[sampled_so_far]` and advances the cursor;
`none` models the `IndexError` raised once `sampled_so_far >= len(samples)`. -/
def sample (s : StrategyState α) : Option (α × StrategyState α) :=
  if h : s.sampled_so_far < s.samples.length then
    some (s.samples.get ⟨s.sampled_so_far, h⟩,
      { samples := s.samples, sampled_so_far := s.sampled_so_far + 1 })
  else none

/-- `finished()`: true once all samples have been sampled
(`sampled_so_far >= len(samples)`). -/
def finished (s : StrategyState α) : Bool :=
  s.samples.length ≤ s.sampled_so_far

/-- The `for _ in range(batch_size)` loop body of
`HyperoptStrategy.sample_batch` (lines 100-114): each iteration tries
`sample()`; on `IndexError` it re-raises if no sample was accumulated yet,
otherwise it swallows the error and keeps looping. -/
def sampleBatchAux : ℕ → StrategyState α → List α → Option (List α × StrategyState α)
  | 0, s, acc => some (acc, s)
  | n + 1, s, acc =>
    match s.sample with
    | some (x, s') => sampleBatchAux n s' (acc ++ [x])
    | none => if acc.isEmpty then none else sampleBatchAux n s acc

/-- `HyperoptStrategy.sample_batch(batch_size)` (the Python default for
`batch_size` is 1); `none` models an uncaught `IndexError`. -/
def sampleBatch (s : StrategyState α) (batch_size : ℕ) : Option (List α × StrategyState α) :=
  sampleBatchAux batch_size s []

/-- Calling `sample()` exactly `n` consecutive times, all of them required to
succeed. -/
def sampleN : StrategyState α → ℕ → Option (List α × StrategyState α)
  | s, 0 => some ([], s)
  | s, n + 1 =>
    match s.sample with
    | some (x, s') =>
      match sampleN s' n with
      | some (xs, s'') => some (x :: xs, s'')
      | none => none
    | none => none

end StrategyState

/-- `itertools.product` over a list of candidate lists: the first list varies
slowest. -/
def productLists : List (List α) → List (List α)
  | [] => [[]]
  | l :: ls => l.flatMap (fun x => (productLists ls).map (fun combo => x :: combo))

/-- `GridStrategy._get_grids` (lines 193-198): the parameter names are sorted
(`hp_params = sorted(self.search_space)`), and every element of the
cross-product of the candidate lists is zipped back with the sorted names
(`dict(zip(hp_params, prod))`). The search space is a Python dict modeled as
an association list from parameter name to candidate list. -/
def get_grids (search_space : List (String × List α)) : List (List (String × α)) :=
  let sorted_space := search_space.mergeSort (fun a b => a.1 ≤ b.1)
  (productLists (sorted_space.map Prod.snd)).map
    (fun combo => (sorted_space.map Prod.fst).zip combo)

/-- `GridStrategy.__init__`: `self.samples = self._get_grids()` and
`self.sampled_so_far = 0`. -/
def gridStrategyInit (search_space : List (String × List α)) :
    StrategyState (List (String × α)) :=
  { samples := get_grids search_space, sampled_so_far := 0 }

/-- One entry of `hyperopt_results`: the dict
`{"parameters": ..., "metric_score": ..., "training_stats": ..., "eval_stats": ...}`.
The metric score is a Python float, modeled as `ℚ`; the stats are opaque
blobs of type `τ`. -/
structure TrialResult (π τ : Type) where
  parameters : π
  metric_score : ℚ
  training_stats : τ
  eval_stats : τ
deriving DecidableEq

/-- The comparison used by `HyperoptExecutor.sort_hyperopt_results`
(lines 266-270): Python's stable `sorted` with `key=metric_score` and
`reverse=(goal == MAXIMIZE)`; with `reverse=True` a tie still keeps the
original order. -/
def resultLe (goal : SearchGoal) (a b : TrialResult π τ) : Bool :=
  match goal with
  | .maximize => b.metric_score ≤ a.metric_score
  | .minimize => a.metric_score ≤ b.metric_score

/-- `HyperoptExecutor.sort_hyperopt_results(hyperopt_results)`: a stable sort
of the results by metric score, ascending for `MINIMIZE` and descending for
`MAXIMIZE`. -/
def sort_hyperopt_results (goal : SearchGoal) (results : List (TrialResult π τ)) :
    List (TrialResult π τ) :=
  results.mergeSort (resultLe goal)

/-- A GPU slot: the `gpu_id_meta` dict
`{"gpu_id": ..., "gpu_memory_limit": ...}` put on the shared queue
(lines 627-633). -/
structure GpuSlot where
  gpu_id : String
  gpu_memory_limit : ℚ
deriving DecidableEq

/-- `ParallelExecutor._train_and_eval_model_gpu(hyperopt_dict)`
(lines 464-479): dequeue a slot (`self.queue.get()`, which blocks forever on
an empty queue — modeled as `none`), run the trial body (which may raise,
modeled as `Except.error`), and in the `finally` block put the slot back
(`self.queue.put(gpu_id_meta)`) before the outcome propagates. The queue is
FIFO: the head is the next slot handed out and a returned slot goes to the
tail. -/
def train_and_eval_model_gpu (trial : GpuSlot → Except ε ρ) :
    List GpuSlot → Option (Except ε ρ × List GpuSlot)
  | [] => none
  | slot :: rest => some (trial slot, rest ++ [slot])

/-- A sequence of GPU trials run one after the other against the shared slot
queue; each dequeues a slot and unconditionally returns it. If the queue is
empty the remaining trials block (`none` branch: nothing further runs and the
queue is unchanged). -/
def runGpuTrials (trials : List (GpuSlot → Except ε ρ)) (queue : List GpuSlot) :
    List (Except ε ρ) × List GpuSlot :=
  match trials with
  | [] => ([], queue)
  | t :: ts =>
    match train_and_eval_model_gpu t queue with
    | none => ([], queue)
    | some (out, queue') =>
      let (outs, qf) := runGpuTrials ts queue'
      (out :: outs, qf)

/-- The per-device memory limit computed by `ParallelExecutor.execute` when
`num_gpus < self.num_workers` and `gpu_memory_limit is None` (lines 550-569):
`fraction = num_gpus / self.num_workers - self.epsilon`,
`required_gpu_memory = fraction * available_gpu_memory`, and
`new_gpu_memory_limit = required_gpu_memory -
(TF_REQUIRED_MEMORY_PER_WORKER * self.num_workers)` with
`TF_REQUIRED_MEMORY_PER_WORKER = 100`. -/
def computed_gpu_memory_limit (num_gpus num_workers : ℕ) (epsilon : ℚ)
    (available_gpu_memory : ℚ) : ℚ :=
  ((num_gpus : ℚ) / (num_workers : ℚ) - epsilon) * available_gpu_memory
    - 100 * (num_workers : ℚ)

/-- `process_per_gpu = int(available_gpu_memory / new_gpu_memory_limit)`
(lines 613-614). -/
def process_per_gpu (available_gpu_memory new_gpu_memory_limit : ℚ) : ℤ :=
  pytrunc (available_gpu_memory / new_gpu_memory_limit)

/-- The exception surfaced by `get_available_gpu_memory`: either the
underlying error of the subprocess call would propagate, or the
`UnboundLocalError` raised by the final `return memory_free_values` when the
variable was never assigned. -/
inductive GpuMemError (ε : Type) where
  | underlying : ε → GpuMemError ε
  | unboundLocal : GpuMemError ε
deriving DecidableEq

/-- Python `s.split(sep)` for a single-character separator, over the
character list of `s`: empty fields are kept, exactly as in Python. -/
def splitCharAux (sep : Char) : List Char → List Char → List String
  | [], acc => [String.mk acc.reverse]
  | c :: cs, acc =>
    if c = sep then String.mk acc.reverse :: splitCharAux sep cs []
    else splitCharAux sep cs (c :: acc)

/-- Python `s.split(sep)` for a single-character separator. -/
def splitChar (sep : Char) (s : String) : List String :=
  splitCharAux sep s.data []

/-- The numeric value of a decimal digit character, `none` otherwise. -/
def charDigit (c : Char) : Option ℕ :=
  if '0' ≤ c ∧ c ≤ '9' then some (c.toNat - '0'.toNat) else none

/-- A non-empty run of decimal digits as a natural number. -/
def digitsToNat : List Char → Option ℕ
  | [] => none
  | cs => cs.foldlM (fun acc c => (charDigit c).map (fun d => acc * 10 + d)) 0

/-- Python `int(s)` on a plain decimal string (optional leading minus);
`none` models the `ValueError` on anything else. -/
def pyInt (s : String) : Option ℤ :=
  match s.data with
  | '-' :: rest => (digitsToNat rest).map (fun n => -(n : ℤ))
  | cs => (digitsToNat cs).map (fun n => (n : ℤ))

/-- Parse one `nvidia-smi --query-gpu=memory.free` row:
`int(x.split()[0])` — the first whitespace-separated token as an integer;
`none` models the `IndexError`/`ValueError` raised on an unparsable row. -/
def parseMemRow (row : String) : Option ℤ :=
  match (splitChar ' ' row).filter (fun t => decide (t ≠ "")) with
  | [] => none
  | t :: _ => pyInt t

/-- `get_available_gpu_memory()` (lines 945-957) over the outcome of the
`nvidia-smi` subprocess: `cmd` carries the output lines with
`_output_to_list` already applied (decoded, split on newlines, trailing empty
line dropped); the header row is skipped (`[1:]`). When `sp.check_output`
raises, or any row fails to parse, the bare `except Exception` clause prints
and swallows the underlying exception, and the final
`return memory_free_values` then raises `UnboundLocalError` because the
variable was never assigned. -/
def get_available_gpu_memory (cmd : Except ε (List String)) :
    Except (GpuMemError ε) (List ℤ) :=
  match cmd with
  | .error _ => .error .unboundLocal
  | .ok lines =>
    match (lines.drop 1).mapM parseMemRow with
    | some memory_free_values => .ok memory_free_values
    | none => .error .unboundLocal

/-- JSON-like values for model-definition dictionaries. -/
inductive JVal where
  | num : ℤ → JVal
  | str : String → JVal
  | obj : List (String × JVal) → JVal
  | arr : List JVal → JVal

/-- Python dict item read `d[k]` on an insertion-ordered association list;
`none` models a `KeyError`. -/
def dictGet (d : List (String × JVal)) (k : String) : Option JVal :=
  match d with
  | [] => none
  | (k', v) :: rest => if k' = k then some v else dictGet rest k

/-- Python dict item write `d[k] = v`: updates the first matching key in
place (keeping its position) or appends a new entry. -/
def dictSet (d : List (String × JVal)) (k : String) (v : JVal) :
    List (String × JVal) :=
  match d with
  | [] => [(k, v)]
  | (k', v') :: rest => if k' = k then (k, v) :: rest else (k', v') :: dictSet rest k v

/-- One `(key, value)` iteration of the `for key, value in params.items()`
loop of `set_values` (lines 909-914): a dict value merges its sub-keys one
level deep into the existing sub-dict (`model_dict[key][sub_key] = sub_value`,
a `KeyError`/`TypeError` — `none` — when `model_dict[key]` is missing or not
a dict); any other value overwrites `model_dict[key]`. -/
def setValuesStep (model_dict : List (String × JVal)) (key : String) (value : JVal) :
    Option (List (String × JVal)) :=
  match value with
  | .obj subparams =>
    match dictGet model_dict key with
    | some (.obj sub) =>
      some (dictSet model_dict key
        (.obj (subparams.foldl (fun d p => dictSet d p.1 p.2) sub)))
    | _ => none
  | _ => some (dictSet model_dict key value)

/-- `set_values(model_dict, name, parameters_dict)` (lines 906-914): a no-op
unless `name` is a key of `parameters_dict`; its value must be a dict
(`params.items()`), whose entries are merged into `model_dict`. -/
def set_values (model_dict : List (String × JVal)) (name : String)
    (parameters_dict : List (String × JVal)) : Option (List (String × JVal)) :=
  match dictGet parameters_dict name with
  | none => some model_dict
  | some (.obj params) => params.foldlM (fun d p => setValuesStep d p.1 p.2) model_dict
  | some _ => none

/-- The inner loop of `get_parameters_dict` (lines 920-928): write `value` at
the dotted path `path` inside the nested dict `d`, creating intermediate
dicts with `curr_dict.get(name_elem, {})`. Descending through an existing
non-dict value fails in Python (`TypeError`), modeled as `none`. -/
def insertDotted (d : List (String × JVal)) (path : List String) (value : JVal) :
    Option (List (String × JVal)) :=
  match path with
  | [] => some d
  | [k] => some (dictSet d k value)
  | k :: rest =>
    match dictGet d k with
    | some (.obj sub) =>
      match insertDotted sub rest value with
      | some sub' => some (dictSet d k (.obj sub'))
      | none => none
    | some _ => none
    | none =>
      match insertDotted [] rest value with
      | some sub' => some (dictSet d k (.obj sub'))
      | none => none

/-- `get_parameters_dict(parameters)` (lines 917-929): converts a flat
dotted-name parameter mapping into a nested dict. -/
def get_parameters_dict (parameters : List (String × JVal)) :
    Option (List (String × JVal)) :=
  parameters.foldlM (fun d p => insertDotted d (splitChar '.' p.1) p.2) []

/-- The `set_values(input_feature, input_feature["name"], parameters_dict)`
call of `substitute_parameters`: the feature must be a dict with a `"name"`
entry; a non-string name is never a key of the (string-keyed) parameters
dict, so it leaves the feature unchanged. -/
def setFeatureValues (pd : List (String × JVal)) (feature : JVal) : Option JVal :=
  match feature with
  | .obj f =>
    match dictGet f "name" with
    | some (.str n) =>
      match set_values f n pd with
      | some f' => some (.obj f')
      | none => none
    | some _ => some (.obj f)
    | none => none
  | _ => none

/-- Apply `set_values` to every feature of the list stored under `key` in the
model definition (`for input_feature in model_definition["input_features"]`,
and likewise for output features). -/
def substituteFeatures (md : List (String × JVal)) (key : String)
    (pd : List (String × JVal)) : Option (List (String × JVal)) :=
  match dictGet md key with
  | some (.arr feats) =>
    match feats.mapM (setFeatureValues pd) with
    | some feats' => some (dictSet md key (.arr feats'))
    | none => none
  | _ => none

/-- Apply `set_values(model_definition[key], key, parameters_dict)` to one
top-level section (combiner / training / preprocessing). -/
def substituteSection (md : List (String × JVal)) (key : String)
    (pd : List (String × JVal)) : Option (List (String × JVal)) :=
  match dictGet md key with
  | some (.obj sec) =>
    match set_values sec key pd with
    | some sec' => some (dictSet md key (.obj sec'))
    | none => none
  | _ => none

/-- `substitute_parameters(model_definition, parameters)` (lines 932-942):
builds the nested parameters dict and merges it into each input feature, each
output feature (keyed by the feature's `"name"`), and into the combiner,
training, and preprocessing sections. -/
def substitute_parameters (model_definition : JVal)
    (parameters : List (String × JVal)) : Option JVal :=
  (get_parameters_dict parameters).bind fun pd =>
  match model_definition with
  | .obj md =>
    (substituteFeatures md "input_features" pd).bind fun md1 =>
    (substituteFeatures md1 "output_features" pd).bind fun md2 =>
    (substituteSection md2 "combiner" pd).bind fun md3 =>
    (substituteSection md3 "training" pd).bind fun md4 =>
    (substituteSection md4 "preprocessing" pd).map fun md5 => JVal.obj md5
  | _ => none

/-- A complete nested model definition: the five sections touched by
`substitute_parameters` plus arbitrary further top-level entries. -/
def mkModelDef (ifs ofs : List JVal) (comb training prep extra : List (String × JVal)) :
    JVal :=
  JVal.obj (("input_features", JVal.arr ifs) :: ("output_features", JVal.arr ofs) ::
    ("combiner", JVal.obj comb) :: ("training", JVal.obj training) ::
    ("preprocessing", JVal.obj prep) :: extra)

/-- A feature dict is well-formed for substitution when it has a string
`"name"` that is not the name of a targeted section key of the parameters
dict (here: not `"training"`). -/
def FeatureOkFor (bad : String) (feature : JVal) : Prop :=
  ∃ fl n, feature = JVal.obj fl ∧ dictGet fl "name" = some (JVal.str n) ∧ n ≠ bad

/-- The observable trace of one `ParallelExecutor.execute` run: the argument
list handed to each `pool.map` call, the `(parameters, metric_score)` list
handed to each `update_batch` call, and the accumulated `hyperopt_results`
(each result reduced to its parameters and metric score; the stats blobs are
irrelevant to dispatch bookkeeping, and the score type `σ` is opaque to the
loop). -/
structure ExecTrace (π σ : Type) where
  dispatches : List (List π)
  updateCalls : List (List (π × σ))
  results : List (π × σ)
deriving DecidableEq

/-- The `while not self.hyperopt_strategy.finished()` loop of
`ParallelExecutor.execute` (lines 637-698) for a list-backed strategy whose
`update` is a no-op (`GridStrategy` / `RandomStrategy`). `hyperopt_parameters`
is the list initialized once before the loop (line 521); each iteration calls
`sample_batch()` with the default `batch_size = 1`, appends the sampled
configurations to `hyperopt_parameters`, hands the whole accumulated list to
`pool.map` (lines 687-691), calls `update_batch` on the batch results, and
extends `hyperopt_results`. `runTrial` is the black-box per-configuration
metric score; `fuel` bounds the iterations; `none` models an `IndexError`
escaping the loop or an exhausted fuel bound. -/
def parallelExecuteLoop (runTrial : π → σ) :
    ℕ → StrategyState π → List π → List (π × σ) → Option (ExecTrace π σ)
  | 0, _, _, _ => none
  | fuel + 1, s, hyperopt_parameters, hyperopt_results =>
    if s.finished then
      some { dispatches := [], updateCalls := [], results := hyperopt_results }
    else
      match s.sampleBatch 1 with
      | none => none
      | some (sampled_parameters, s') =>
        let hp := hyperopt_parameters ++ sampled_parameters
        let batch_results := hp.map (fun p => (p, runTrial p))
        match parallelExecuteLoop runTrial fuel s' hp (hyperopt_results ++ batch_results) with
        | none => none
        | some tr =>
          some { dispatches := hp :: tr.dispatches,
                 updateCalls := batch_results :: tr.updateCalls,
                 results := tr.results }

/-- One whole `ParallelExecutor.execute` dispatch loop, with enough fuel for
every remaining sample plus the final `finished()` check. -/
def parallelExecute (runTrial : π → σ) (s : StrategyState π) : Option (ExecTrace π σ) :=
  parallelExecuteLoop runTrial (s.samples.length - s.sampled_so_far + 1) s [] []

/-! ## Helper lemmas -/

theorem pytrunc_eq_floor_ceil (q : ℚ) : pytrunc q = if 0 ≤ q then ⌊q⌋ else ⌈q⌉ := by
  unfold pytrunc
  split
  · rename_i h
    have hnum : 0 ≤ q.num := Rat.num_nonneg.mpr h
    rw [Int.tdiv_eq_ediv hnum (Int.ofNat_nonneg q.den)]
    exact Rat.floor_def.symm
  · rename_i h
    have hnum : -q.num ≥ 0 := by
      have : ¬ 0 ≤ q.num := fun hc => h (Rat.num_nonneg.mp hc)
      omega
    have h1 : q.num.tdiv q.den = -((-q.num).tdiv q.den) := by
      rw [Int.neg_tdiv]
      omega
    have h2 : ⌊-q⌋ = (-q.num) / (q.den : ℤ) := by
      rw [Rat.floor_def, Rat.neg_num, Rat.neg_den]
    rw [h1, Int.tdiv_eq_ediv hnum (Int.ofNat_nonneg q.den), ← h2, Int.floor_neg]
    omega

theorem pytrunc_intCast (m : ℤ) : pytrunc (m : ℚ) = m := by
  rw [pytrunc_eq_floor_ceil]
  split <;> simp

theorem pytrunc_mem_Icc {a b : ℤ} {q : ℚ} (h1 : (a : ℚ) ≤ q) (h2 : q ≤ (b : ℚ)) :
    a ≤ pytrunc q ∧ pytrunc q ≤ b := by
  have hfl : a ≤ ⌊q⌋ := Int.le_floor.mpr h1
  have hcl : ⌈q⌉ ≤ b := Int.ceil_le.mpr h2
  have hfc : ⌊q⌋ ≤ ⌈q⌉ := Int.floor_le_ceil q
  rw [pytrunc_eq_floor_ceil]
  split
  · exact ⟨hfl, le_trans hfc hcl⟩
  · exact ⟨le_trans hfl hfc, hcl⟩

theorem pytrunc_div_mul_le {A L : ℚ} (hA : 0 ≤ A) (hL : L ≠ 0) :
    (pytrunc (A / L) : ℚ) * L ≤ A := by
  rcases lt_or_gt_of_ne hL with hneg | hpos
  · rw [pytrunc_eq_floor_ceil]
    split
    · rename_i hq
      have hq0 : A / L ≤ 0 := div_nonpos_of_nonneg_of_nonpos hA hneg.le
      have hq' : A / L = 0 := le_antisymm hq0 hq
      rw [hq']
      have : A = 0 := by
        have := div_eq_zero_iff.mp hq'
        rcases this with h | h
        · exact h
        · exact absurd h hL
      simp [this]
    · have hceil : (A / L : ℚ) ≤ (⌈A / L⌉ : ℚ) := Int.le_ceil _
      calc (⌈A / L⌉ : ℚ) * L ≤ (A / L) * L :=
            mul_le_mul_of_nonpos_right hceil hneg.le
        _ = A := div_mul_cancel₀ A hL
  · have hq0 : 0 ≤ A / L := div_nonneg hA hpos.le
    rw [pytrunc_eq_floor_ceil, if_pos hq0]
    have hfloor : ((⌊A / L⌋ : ℤ) : ℚ) ≤ A / L := Int.floor_le _
    calc (⌊A / L⌋ : ℚ) * L ≤ (A / L) * L := mul_le_mul_of_nonneg_right hfloor hpos.le
      _ = A := div_mul_cancel₀ A hL

/-! ## C9: device-free-memory query failure behavior -/

/-- C9 counterexample: when the subprocess fails with an underlying error
(the tool is missing, `FileNotFoundError`), `get_available_gpu_memory`
propagates an `UnboundLocalError` — not the underlying error, which the bare
`except` clause swallowed. -/
theorem get_available_gpu_memory_underlying_swallowed :
    get_available_gpu_memory
        (Except.error "FileNotFoundError" : Except String (List String))
        = .error .unboundLocal ∧
      (GpuMemError.unboundLocal : GpuMemError String)
        ≠ .underlying "FileNotFoundError" := by
  exact ⟨rfl, by decide⟩

/-- C9 (amended): for every invocation in which the underlying
device-management command fails, `get_available_gpu_memory` still fails —
it raises (an `UnboundLocalError` from the never-assigned result variable)
rather than returning a silently defaulted list — but the underlying error
itself is swallowed, not propagated. -/
theorem get_available_gpu_memory_failure_raises (ε : Type) (e : ε) :
    get_available_gpu_memory (Except.error e)
      = Except.error GpuMemError.unboundLocal := rfl

/-! ## C3: GPU slot release discipline -/

/-- C3: the GpuSlot dequeued at the start of
`_train_and_eval_model_gpu` is returned to the pool on every exit path
(whatever `Except` outcome the trial body produces), and after any number of
trials run against a (non-empty) pool the pool holds exactly the slots it
started with — the same count, nothing leaked or duplicated. -/
theorem gpu_slot_release_unconditional (ε ρ : Type)
    (t : GpuSlot → Except ε ρ) (slot : GpuSlot) (rest : List GpuSlot)
    (trials : List (GpuSlot → Except ε ρ)) (queue : List GpuSlot)
    (hq : queue ≠ []) :
    train_and_eval_model_gpu t (slot :: rest) = some (t slot, rest ++ [slot]) ∧
    (runGpuTrials trials queue).2.Perm queue ∧
    (runGpuTrials trials queue).2.length = queue.length := by
  have key : ∀ (ts : List (GpuSlot → Except ε ρ)) (q : List GpuSlot), q ≠ [] →
      (runGpuTrials ts q).2.Perm q := by
    intro ts
    induction ts with
    | nil => intro q _; simp [runGpuTrials]
    | cons t' ts ih =>
      intro q hq
      match q with
      | [] => exact absurd rfl hq
      | s0 :: qrest =>
        have hne : (qrest ++ [s0]) ≠ [] := by simp
        have hperm := ih (qrest ++ [s0]) hne
        simp only [runGpuTrials, train_and_eval_model_gpu]
        exact hperm.trans (List.perm_append_singleton s0 qrest)
  refine ⟨rfl, key trials queue hq, (key trials queue hq).length_eq⟩

/-- C3 witness: one failing and one succeeding trial against a single-slot
pool leave the pool with exactly one slot. -/
theorem gpu_slot_release_unconditional_witness :
    (runGpuTrials [fun _ => Except.error "boom", fun _ => Except.ok (1 : ℕ)]
        [⟨"0", 1024⟩]).2.length = [(⟨"0", 1024⟩ : GpuSlot)].length :=
  (gpu_slot_release_unconditional String ℕ (fun _ => Except.error "boom")
    ⟨"0", 1024⟩ [] [fun _ => Except.error "boom", fun _ => Except.ok 1]
    [⟨"0", 1024⟩] (by decide)).2.2

/-! ## C7: fair fractional GPU memory limits -/

/-- C7: with fewer declared devices than workers and no explicit
`gpu_memory_limit`, the computed per-worker memory limit for a device is
strictly below that device's free memory, and
`process_per_gpu * memory_limit` does not exceed the free memory. The free
memory is an integer number of MB (as parsed from `nvidia-smi`); the one
proviso is that the computed limit is non-zero, since Python would otherwise
raise `ZeroDivisionError` computing `process_per_gpu`. -/
theorem parallel_gpu_memory_limit_spec
    (num_gpus num_workers : ℕ) (epsilon : ℚ) (free : ℕ)
    (hg : 0 < num_gpus) (hgw : num_gpus < num_workers) (he : 0 < epsilon)
    (hL : computed_gpu_memory_limit num_gpus num_workers epsilon free ≠ 0) :
    computed_gpu_memory_limit num_gpus num_workers epsilon free < (free : ℚ) ∧
    (process_per_gpu free (computed_gpu_memory_limit num_gpus num_workers epsilon free) : ℚ)
        * computed_gpu_memory_limit num_gpus num_workers epsilon free ≤ (free : ℚ) := by
  have hw : 0 < num_workers := lt_trans hg hgw
  have hwq : (0 : ℚ) < num_workers := by exact_mod_cast hw
  have hfreeq : (0 : ℚ) ≤ free := by positivity
  set c : ℚ := (num_gpus : ℚ) / (num_workers : ℚ) - epsilon with hc
  have hc1 : c < 1 := by
    have hfrac : (num_gpus : ℚ) / (num_workers : ℚ) < 1 := by
      rw [div_lt_one hwq]
      exact_mod_cast hgw
    calc c ≤ (num_gpus : ℚ) / (num_workers : ℚ) := by
          simp [hc, he.le]
      _ < 1 := hfrac
  have hcf : c * (free : ℚ) ≤ (free : ℚ) := by
    rcases le_or_lt 0 c with h0 | h0
    · calc c * (free : ℚ) ≤ 1 * (free : ℚ) :=
          mul_le_mul_of_nonneg_right hc1.le hfreeq
        _ = (free : ℚ) := one_mul _
    · calc c * (free : ℚ) ≤ 0 := mul_nonpos_of_nonpos_of_nonneg h0.le hfreeq
        _ ≤ (free : ℚ) := hfreeq
  have hLlt : computed_gpu_memory_limit num_gpus num_workers epsilon free < (free : ℚ) := by
    unfold computed_gpu_memory_limit
    rw [← hc]
    have h100w : (0 : ℚ) < 100 * (num_workers : ℚ) := by positivity
    linarith
  refine ⟨hLlt, ?_⟩
  exact pytrunc_div_mul_le hfreeq hL

/-- C7 witness: 2 devices, 4 workers, default `epsilon = 0.01`, a device with
10000 MB free: the limit (4500 MB) is below the free memory and two processes
per device fit within it. -/
theorem parallel_gpu_memory_limit_spec_witness :
    computed_gpu_memory_limit 2 4 (1 / 100) 10000 < (10000 : ℚ) ∧
    (process_per_gpu 10000 (computed_gpu_memory_limit 2 4 (1 / 100) 10000) : ℚ)
        * computed_gpu_memory_limit 2 4 (1 / 100) 10000 ≤ (10000 : ℚ) :=
  parallel_gpu_memory_limit_spec 2 4 (1 / 100) 10000 (by norm_num) (by norm_num)
    (by norm_num) (by norm_num [computed_gpu_memory_limit])

/-! ## C6: integer grid function -/

theorem linspace_mem_bounds {low high : ℚ} (h : low ≤ high) {k : ℕ} {q : ℚ}
    (hq : q ∈ linspace low high k) : low ≤ q ∧ q ≤ high := by
  unfold linspace at hq
  split at hq
  · rcases List.mem_map.mp hq with ⟨i, _, rfl⟩
    exact ⟨le_refl _, h⟩
  · rcases List.mem_map.mp hq with ⟨i, hi, rfl⟩
    rename_i hk
    have hk2 : 2 ≤ k := by omega
    have hden : (0 : ℚ) < (k : ℚ) - 1 := by
      have : (2 : ℚ) ≤ (k : ℚ) := by exact_mod_cast hk2
      linarith
    have hi' : (i : ℚ) ≤ (k : ℚ) - 1 := by
      have hik : i < k := List.mem_range.mp hi
      have : (i : ℚ) + 1 ≤ (k : ℚ) := by exact_mod_cast Nat.succ_le_of_lt hik
      linarith
    have hnum : 0 ≤ (i : ℚ) * (high - low) :=
      mul_nonneg (Nat.cast_nonneg i) (sub_nonneg.mpr h)
    constructor
    · have : 0 ≤ (i : ℚ) * (high - low) / ((k : ℚ) - 1) := div_nonneg hnum hden.le
      linarith
    · have hle1 : (i : ℚ) * (high - low) / ((k : ℚ) - 1) ≤ high - low := by
        rw [div_le_iff₀ hden]
        calc (i : ℚ) * (high - low) ≤ ((k : ℚ) - 1) * (high - low) :=
              mul_le_mul_of_nonneg_right hi' (sub_nonneg.mpr h)
          _ = (high - low) * ((k : ℚ) - 1) := mul_comm _ _
      linarith

theorem linspace_length (low high : ℚ) (k : ℕ) : (linspace low high k).length = k := by
  unfold linspace
  split <;> simp

theorem pytrunc_pos_eval (q : ℚ) (z : ℤ) (h0 : 0 ≤ q) (h1 : (z : ℚ) ≤ q)
    (h2 : q < z + 1) : pytrunc q = z := by
  rw [pytrunc_eq_floor_ceil, if_pos h0, Int.floor_eq_iff]
  exact ⟨h1, by exact_mod_cast h2⟩

/-- C6 counterexample: for the integer range (0, 10) with `steps = 4`, the
grid is `[0, 3, 6, 10]` — exactly 4 values inside the range, but NOT evenly
spaced integers (differences 3, 3, 4), because `np.linspace(..., dtype=int)`
truncates the evenly spaced reals. -/
theorem int_grid_function_uneven_counterexample :
    int_grid_function 0 10 (some 4) = some [0, 3, 6, 10] ∧
      evenlySpaced [0, 3, 6, 10] = false := by
  constructor
  · have h1 : int_grid_function 0 10 (some 4) = some ((linspace 0 10 4).map pytrunc) := by
      unfold int_grid_function
      norm_num
      rw [show (4 : ℤ).toNat = 4 from rfl]
    have h2 : linspace 0 10 4 = [0, 10 / 3, 20 / 3, 10] := by
      unfold linspace
      norm_num [List.range_succ]
    have h3 : (([0, 10 / 3, 20 / 3, 10] : List ℚ)).map pytrunc = [0, 3, 6, 10] := by
      simp only [List.map_cons, List.map_nil]
      rw [pytrunc_pos_eval 0 0 (by norm_num) (by norm_num) (by norm_num),
        pytrunc_pos_eval (10 / 3) 3 (by norm_num) (by norm_num) (by norm_num),
        pytrunc_pos_eval (20 / 3) 6 (by norm_num) (by norm_num) (by norm_num),
        pytrunc_pos_eval 10 10 (by norm_num) (by norm_num) (by norm_num)]
    rw [h1, h2, h3]
  · decide

/-- C6 (amended): for an integer range (low, high) with `low ≤ high`:
with `steps` unspecified, the grid is exactly the `high - low + 1` integers
`low, low + 1, ..., high` spanning the inclusive range; with an explicit
`steps ≥ 1`, the grid has exactly `steps` values, each within
`[low, high]` — they are the integer truncations of `steps` evenly spaced
rationals, and need not be evenly spaced themselves. -/
theorem int_grid_function_spec (low high n : ℤ) (hlh : low ≤ high) (hn : 1 ≤ n) :
    (int_grid_function low high none
        = some ((List.range (high - low + 1).toNat).map (fun i : ℕ => low + (i : ℤ)))) ∧
    (∃ l, int_grid_function low high (some n) = some l ∧
        l.length = n.toNat ∧ ∀ x ∈ l, low ≤ x ∧ x ≤ high) := by
  constructor
  · have h0 : 0 ≤ high - low + 1 := by linarith
    unfold int_grid_function
    rw [Option.getD_none, if_neg (by omega)]
    congr 1
    rcases eq_or_lt_of_le hlh with heq | hlt
    · subst heq
      have h1 : (low - low + 1).toNat = 1 := by omega
      rw [h1]
      simp [linspace, List.range_succ, pytrunc_intCast]
    · have h2 : 2 ≤ (high - low + 1).toNat := by omega
      rw [linspace, if_neg (by omega), List.map_map]
      apply List.map_congr_left
      intro i _
      have hcast : (((high - low + 1).toNat : ℕ) : ℚ) - 1 = (high : ℚ) - (low : ℚ) := by
        have ht : (((high - low + 1).toNat : ℕ) : ℤ) = high - low + 1 :=
          Int.toNat_of_nonneg (by linarith)
        have : (((high - low + 1).toNat : ℕ) : ℚ) = ((high - low + 1 : ℤ) : ℚ) := by
          exact_mod_cast congrArg (fun z : ℤ => (z : ℚ)) ht
        rw [this]
        push_cast
        ring
      have hne : (high : ℚ) - (low : ℚ) ≠ 0 := by
        have : (low : ℚ) < (high : ℚ) := by exact_mod_cast hlt
        intro hcontra
        linarith
      simp only [Function.comp]
      rw [hcast, mul_div_cancel_right₀ (i : ℚ) hne]
      have : (low : ℚ) + (i : ℚ) = ((low + (i : ℤ) : ℤ) : ℚ) := by push_cast; ring
      rw [this, pytrunc_intCast]
  · have hnn : ¬ (n < 0) := by linarith
    refine ⟨(linspace (low : ℚ) (high : ℚ) n.toNat).map pytrunc, ?_, ?_, ?_⟩
    · unfold int_grid_function
      rw [Option.getD_some, if_neg hnn]
    · rw [List.length_map, linspace_length]
    · intro x hx
      rcases List.mem_map.mp hx with ⟨q, hq, rfl⟩
      have hlhq : (low : ℚ) ≤ (high : ℚ) := by exact_mod_cast hlh
      exact pytrunc_mem_Icc (linspace_mem_bounds hlhq hq).1 (linspace_mem_bounds hlhq hq).2

/-- C6 witness: range (0, 2): default steps give `[0, 1, 2]`; explicit
`steps = 5` gives exactly 5 values inside `[0, 2]`. -/
theorem int_grid_function_spec_witness :
    (int_grid_function 0 2 none
        = some ((List.range ((2 : ℤ) - 0 + 1).toNat).map (fun i : ℕ => (0 : ℤ) + (i : ℤ)))) ∧
    (∃ l, int_grid_function 0 2 (some 5) = some l ∧
        l.length = (5 : ℤ).toNat ∧ ∀ x ∈ l, (0 : ℤ) ≤ x ∧ x ≤ 2) :=
  int_grid_function_spec 0 2 5 (by decide) (by decide)

/-! ## C2: sample_batch exhaustion behavior -/

theorem sampleBatchAux_stall {s : StrategyState α} (h : s.sample = none)
    {acc : List α} (ha : acc ≠ []) (n : ℕ) :
    StrategyState.sampleBatchAux n s acc = some (acc, s) := by
  induction n with
  | zero => rfl
  | succ n ih =>
    unfold StrategyState.sampleBatchAux
    rw [h]
    rw [if_neg (by simp [List.isEmpty_iff, ha])]
    exact ih

theorem sampleBatchAux_run (l : List α) :
    ∀ (n i : ℕ) (acc : List α), i < l.length → l.length - i < n →
      StrategyState.sampleBatchAux n ⟨l, i⟩ acc
        = some (acc ++ l.drop i, ⟨l, l.length⟩) := by
  intro n
  induction n with
  | zero => intro i acc h1 h2; omega
  | succ n ih =>
    intro i acc h1 h2
    have hs : StrategyState.sample ⟨l, i⟩ = some (l.get ⟨i, h1⟩, ⟨l, i + 1⟩) := by
      unfold StrategyState.sample
      rw [dif_pos h1]
    have hdrop : l.drop i = l.get ⟨i, h1⟩ :: l.drop (i + 1) := by
      rw [List.get_eq_getElem, List.drop_eq_getElem_cons h1]
    by_cases hlast : i + 1 < l.length
    · have hfuel : l.length - (i + 1) < n := by omega
      have ih' := ih (i + 1) (acc ++ [l.get ⟨i, h1⟩]) hlast hfuel
      simp only [StrategyState.sampleBatchAux, hs]
      rw [ih', List.append_assoc, hdrop]
      rfl
    · have hieq : i + 1 = l.length := by omega
      have hnone : StrategyState.sample ⟨l, i + 1⟩ = none := by
        unfold StrategyState.sample
        rw [dif_neg (show ¬ (i + 1 < l.length) by omega)]
      simp only [StrategyState.sampleBatchAux, hs]
      rw [sampleBatchAux_stall hnone (by simp) n, hdrop, hieq, List.drop_length]

/-- C2: for any list-backed strategy and any `batch_size ≥ 1`:
if the very first `sample()` in a `sample_batch` call is already exhausted,
`sample_batch` itself fails with the `IndexError`; if at least one sample
remains but fewer than `batch_size`, `sample_batch` instead returns the
partial list of all remaining samples without failing, and the resulting
strategy state has `finished() = true`. -/
theorem sample_batch_exhaustion_spec (s : StrategyState α) (batch_size : ℕ)
    (hbs : 1 ≤ batch_size) :
    (s.sample = none → s.sampleBatch batch_size = none) ∧
    (s.sampled_so_far < s.samples.length →
      s.samples.length - s.sampled_so_far < batch_size →
      s.sampleBatch batch_size
          = some (s.samples.drop s.sampled_so_far, ⟨s.samples, s.samples.length⟩) ∧
        StrategyState.finished (⟨s.samples, s.samples.length⟩ : StrategyState α) = true) := by
  constructor
  · intro h
    obtain ⟨m, rfl⟩ : ∃ m, batch_size = m + 1 := ⟨batch_size - 1, by omega⟩
    unfold StrategyState.sampleBatch StrategyState.sampleBatchAux
    rw [h]
    simp
  · intro h1 h2
    refine ⟨?_, by simp [StrategyState.finished]⟩
    obtain ⟨l, i⟩ := s
    unfold StrategyState.sampleBatch
    simpa using sampleBatchAux_run l batch_size i [] h1 h2

/-- C2 witness: a strategy with exactly 2 remaining samples, asked for a
batch of 3, returns the 2-element partial batch and is then finished. -/
theorem sample_batch_exhaustion_spec_witness :
    StrategyState.sampleBatch (⟨[10, 20], 0⟩ : StrategyState ℕ) 3
        = some ([10, 20], ⟨[10, 20], 2⟩) ∧
      StrategyState.finished (⟨[10, 20], 2⟩ : StrategyState ℕ) = true := by
  have h := (sample_batch_exhaustion_spec (⟨[10, 20], 0⟩ : StrategyState ℕ) 3
    (by decide)).2 (by decide) (by decide)
  exact ⟨by simpa using h.1, by simpa using h.2⟩

/-! ## C5: grid strategy enumeration -/

theorem productLists_length (ls : List (List α)) :
    (productLists ls).length = (ls.map List.length).prod := by
  induction ls with
  | nil => rfl
  | cons l ls ih =>
    simp only [productLists, List.map_cons, List.prod_cons]
    induction l with
    | nil => simp
    | cons x xs ihx =>
      simp only [List.flatMap_cons, List.length_append, List.length_map, ih,
        List.length_cons] at ihx ⊢
      rw [ihx]
      ring

theorem productLists_mem {ls : List (List α)} {combo : List α}
    (h : combo ∈ productLists ls) :
    List.Forall₂ (fun x cands => x ∈ cands) combo ls := by
  induction ls generalizing combo with
  | nil =>
    simp only [productLists, List.mem_singleton] at h
    subst h
    exact List.Forall₂.nil
  | cons l ls ih =>
    simp only [productLists, List.mem_flatMap, List.mem_map] at h
    obtain ⟨x, hx, combo', hcombo', rfl⟩ := h
    exact List.Forall₂.cons hx (ih hcombo')

theorem zip_names_mem :
    ∀ (cs : List (String × List α)) (combo : List α),
      List.Forall₂ (fun x cands => x ∈ cands) combo (cs.map Prod.snd) →
      ∀ pr ∈ (cs.map Prod.fst).zip combo,
        ∃ cands, (pr.1, cands) ∈ cs ∧ pr.2 ∈ cands := by
  intro cs
  induction cs with
  | nil =>
    intro combo _ pr hpr
    simp at hpr
  | cons c cs ih =>
    intro combo h pr hpr
    rw [List.map_cons] at h
    cases h with
    | cons hx hrest =>
      simp only [List.map_cons, List.zip_cons_cons, List.mem_cons] at hpr
      rcases hpr with rfl | hpr'
      · exact ⟨c.2, List.mem_cons_self _ _, hx⟩
      · obtain ⟨cands, hc, hm⟩ := ih _ hrest pr hpr'
        exact ⟨cands, List.mem_cons_of_mem _ hc, hm⟩

theorem sampleN_all (l : List α) :
    ∀ (n i : ℕ), i ≤ l.length → l.length - i = n →
      StrategyState.sampleN ⟨l, i⟩ n = some (l.drop i, ⟨l, l.length⟩) := by
  intro n
  induction n with
  | zero =>
    intro i h1 h2
    have hieq : i = l.length := by omega
    subst hieq
    simp [StrategyState.sampleN, List.drop_length]
  | succ n ih =>
    intro i h1 h2
    have hi : i < l.length := by omega
    have hs : StrategyState.sample ⟨l, i⟩ = some (l.get ⟨i, hi⟩, ⟨l, i + 1⟩) := by
      unfold StrategyState.sample
      rw [dif_pos hi]
    have ih' := ih (i + 1) (by omega) (by omega)
    simp only [StrategyState.sampleN, hs, ih']
    rw [List.get_eq_getElem, ← List.drop_eq_getElem_cons hi]

/-- C5: the grid strategy enumerates the cross-product of the candidate
lists in the fixed sorted-by-name order: the number of grid samples is the
product of the candidate-list lengths; every sample is a valid combination
(one entry per parameter, each value drawn from that parameter's candidate
list); sampling exactly that many times succeeds and exhausts the strategy
(`finished`), and the next `sample()` fails. -/
theorem grid_strategy_spec (search_space : List (String × List α)) :
    (get_grids search_space).length
        = (search_space.map (fun p => p.2.length)).prod ∧
    (∀ g ∈ get_grids search_space, g.length = search_space.length ∧
        ∀ pr ∈ g, ∃ cands, (pr.1, cands) ∈ search_space ∧ pr.2 ∈ cands) ∧
    StrategyState.sampleN (gridStrategyInit search_space)
        (get_grids search_space).length
        = some (get_grids search_space,
            ⟨get_grids search_space, (get_grids search_space).length⟩) ∧
    StrategyState.finished
        (⟨get_grids search_space, (get_grids search_space).length⟩
          : StrategyState (List (String × α))) = true ∧
    StrategyState.sample
        (⟨get_grids search_space, (get_grids search_space).length⟩
          : StrategyState (List (String × α))) = none := by
  have hperm := List.mergeSort_perm search_space
    (fun a b : String × List α => a.1 ≤ b.1)
  refine ⟨?_, ?_, ?_, ?_, ?_⟩
  · simp only [get_grids, List.length_map, productLists_length, List.map_map]
    exact List.Perm.prod_eq (hperm.map _)
  · intro g hg
    simp only [get_grids, List.mem_map] at hg
    obtain ⟨combo, hcombo, rfl⟩ := hg
    have hf2 := productLists_mem hcombo
    have hlen : combo.length
        = (search_space.mergeSort (fun a b => a.1 ≤ b.1)).length := by
      rw [hf2.length_eq, List.length_map]
    constructor
    · rw [List.length_zip, List.length_map, hlen, min_self, hperm.length_eq]
    · intro pr hpr
      obtain ⟨cands, hc, hm⟩ := zip_names_mem _ combo hf2 pr hpr
      exact ⟨cands, hperm.subset hc, hm⟩
  · have := sampleN_all (get_grids search_space) (get_grids search_space).length 0
      (by omega) (by omega)
    simpa [gridStrategyInit] using this
  · simp [StrategyState.finished]
  · unfold StrategyState.sample
    rw [dif_neg (lt_irrefl _)]

/-! ## C4: result sorting -/

theorem resultLe_trans (goal : SearchGoal) :
    ∀ a b c : TrialResult π τ,
      resultLe goal a b = true → resultLe goal b c = true → resultLe goal a c = true := by
  intro a b c hab hbc
  cases goal with
  | minimize =>
    simp only [resultLe, decide_eq_true_eq] at hab hbc ⊢
    exact le_trans hab hbc
  | maximize =>
    simp only [resultLe, decide_eq_true_eq] at hab hbc ⊢
    exact le_trans hbc hab

theorem resultLe_total (goal : SearchGoal) :
    ∀ a b : TrialResult π τ, (resultLe goal a b || resultLe goal b a) = true := by
  intro a b
  cases goal <;> simp only [resultLe, Bool.or_eq_true, decide_eq_true_eq] <;>
    exact le_total _ _

/-- C4: `sort_hyperopt_results` produces a metric-score sequence that is
non-decreasing under `MINIMIZE` and non-increasing under `MAXIMIZE`, and the
sort is stable: for every score value, the sub-sequence of results carrying
that score is exactly the sub-sequence of the input carrying it (relative
order of equal-score results preserved). -/
theorem sort_hyperopt_results_spec (goal : SearchGoal)
    (results : List (TrialResult π τ)) :
    (goal = SearchGoal.minimize →
      (sort_hyperopt_results goal results).Pairwise
        (fun a b => a.metric_score ≤ b.metric_score)) ∧
    (goal = SearchGoal.maximize →
      (sort_hyperopt_results goal results).Pairwise
        (fun a b => b.metric_score ≤ a.metric_score)) ∧
    (∀ v : ℚ,
      (sort_hyperopt_results goal results).filter
          (fun r => decide (r.metric_score = v))
        = results.filter (fun r => decide (r.metric_score = v))) := by
  have hsorted := List.sorted_mergeSort
    (resultLe_trans goal) (resultLe_total goal) results
  refine ⟨?_, ?_, ?_⟩
  · rintro rfl
    exact hsorted.imp (fun h => by
      simpa only [resultLe, decide_eq_true_eq] using h)
  · rintro rfl
    exact hsorted.imp (fun h => by
      simpa only [resultLe, decide_eq_true_eq] using h)
  · intro v
    set p : TrialResult π τ → Bool := fun r => decide (r.metric_score = v) with hp
    have hpair : (results.filter p).Pairwise (fun a b => resultLe goal a b = true) := by
      have hall : ∀ a ∈ results.filter p, ∀ b ∈ results.filter p,
          resultLe goal a b = true := by
        intro a ha b hb
        have hav : a.metric_score = v := by
          have := (List.mem_filter.mp ha).2
          simpa [hp] using this
        have hbv : b.metric_score = v := by
          have := (List.mem_filter.mp hb).2
          simpa [hp] using this
        cases goal <;> simp [resultLe, hav, hbv]
      exact List.pairwise_of_forall_mem_list hall
    have hsub : List.Sublist (results.filter p) (sort_hyperopt_results goal results) :=
      List.sublist_mergeSort (resultLe_trans goal) (resultLe_total goal)
        hpair (List.filter_sublist results)
    have hsub2 : List.Sublist (results.filter p)
        ((sort_hyperopt_results goal results).filter p) := by
      have := hsub.filter p
      simpa [List.filter_filter] using this
    have hperm : List.Perm ((sort_hyperopt_results goal results).filter p)
        (results.filter p) :=
      (List.mergeSort_perm results (resultLe goal)).filter p
    exact (hsub2.eq_of_length hperm.length_eq.symm).symm

/-- C4 witness: a concrete minimize-goal instance with a tied score. -/
theorem sort_hyperopt_results_spec_witness :
    (sort_hyperopt_results SearchGoal.minimize
        [⟨1, 2, 0, 0⟩, ⟨2, 1, 0, 0⟩, ⟨3, 2, 0, 0⟩]).Pairwise
      (fun a b : TrialResult ℕ ℕ => a.metric_score ≤ b.metric_score) :=
  (sort_hyperopt_results_spec SearchGoal.minimize
    [⟨1, 2, 0, 0⟩, ⟨2, 1, 0, 0⟩, ⟨3, 2, 0, 0⟩]).1 rfl

/-! ## C8: parameter substitution -/

theorem dictGet_cons_self (k : String) (v : JVal) (d : List (String × JVal)) :
    dictGet ((k, v) :: d) k = some v := by
  simp [dictGet]

theorem dictGet_cons_ne {k' k : String} (h : k' ≠ k) (v : JVal)
    (d : List (String × JVal)) : dictGet ((k', v) :: d) k = dictGet d k := by
  simp [dictGet, h]

theorem dictSet_cons_self (k : String) (v v' : JVal) (d : List (String × JVal)) :
    dictSet ((k, v) :: d) k v' = (k, v') :: d := by
  simp [dictSet]

theorem dictSet_cons_ne {k' k : String} (h : k' ≠ k) (v w : JVal)
    (d : List (String × JVal)) :
    dictSet ((k', v) :: d) k w = (k', v) :: dictSet d k w := by
  simp [dictSet, h]

theorem dictSet_self {d : List (String × JVal)} {k : String} {v : JVal}
    (h : dictGet d k = some v) : dictSet d k v = d := by
  induction d with
  | nil => simp [dictGet] at h
  | cons e d ih =>
    obtain ⟨k', v'⟩ := e
    by_cases hk : k' = k
    · subst hk
      rw [dictGet_cons_self] at h
      injection h with h
      subst h
      rw [dictSet_cons_self]
    · rw [dictGet_cons_ne hk] at h
      rw [dictSet_cons_ne hk, ih h]

theorem set_values_noop {pd : List (String × JVal)} {name : String}
    (h : dictGet pd name = none) (f : List (String × JVal)) :
    set_values f name pd = some f := by
  simp [set_values, h]

theorem dictGet_training_pd {n : String} (h : n ≠ "training") (v : JVal) :
    dictGet [("training", v)] n = none := by
  rw [dictGet_cons_ne (fun hc => h hc.symm)]
  rfl

theorem setFeatureValues_noop {f : JVal} (hf : FeatureOkFor "training" f) (v : JVal) :
    setFeatureValues [("training", v)] f = some f := by
  obtain ⟨fl, n, rfl, hname, hn⟩ := hf
  simp only [setFeatureValues, hname, set_values_noop (dictGet_training_pd hn v)]

theorem mapM_some_id {l : List JVal} {g : JVal → Option JVal}
    (h : ∀ a ∈ l, g a = some a) : l.mapM g = some l := by
  induction l with
  | nil => rfl
  | cons a l ih =>
    rw [List.mapM_cons, h a (List.mem_cons_self _ _),
      ih (fun b hb => h b (List.mem_cons_of_mem _ hb))]
    rfl

theorem substituteFeatures_noop {md : List (String × JVal)} {key : String}
    {feats : List JVal} (hget : dictGet md key = some (JVal.arr feats))
    {pd : List (String × JVal)}
    (hfeats : ∀ f ∈ feats, setFeatureValues pd f = some f) :
    substituteFeatures md key pd = some md := by
  simp only [substituteFeatures, hget, mapM_some_id hfeats, dictSet_self hget]

theorem substituteSection_noop {md : List (String × JVal)} {key : String}
    {sec : List (String × JVal)} (hget : dictGet md key = some (JVal.obj sec))
    {pd : List (String × JVal)} (hpd : dictGet pd key = none) :
    substituteSection md key pd = some md := by
  simp only [substituteSection, hget, set_values_noop hpd, dictSet_self hget]

theorem set_values_training (tr : List (String × JVal)) (v : ℤ) :
    set_values tr "training" [("training", JVal.obj [("batch_size", JVal.num v)])]
      = some (dictSet tr "batch_size" (JVal.num v)) := by
  simp only [set_values, dictGet_cons_self]
  simp [setValuesStep]

theorem substituteSection_training {md : List (String × JVal)}
    {tr : List (String × JVal)}
    (hget : dictGet md "training" = some (JVal.obj tr)) (v : ℤ) :
    substituteSection md "training"
        [("training", JVal.obj [("batch_size", JVal.num v)])]
      = some (dictSet md "training"
          (JVal.obj (dictSet tr "batch_size" (JVal.num v)))) := by
  simp only [substituteSection, hget, set_values_training]

theorem substitute_training_batch_size (ifs ofs : List JVal)
    (comb tr prep extra : List (String × JVal)) (v : ℤ)
    (hif : ∀ f ∈ ifs, FeatureOkFor "training" f)
    (hof : ∀ f ∈ ofs, FeatureOkFor "training" f) :
    substitute_parameters (mkModelDef ifs ofs comb tr prep extra)
        [("training.batch_size", JVal.num v)]
      = some (mkModelDef ifs ofs comb (dictSet tr "batch_size" (JVal.num v))
          prep extra) := by
  have hpd : get_parameters_dict [("training.batch_size", JVal.num v)]
      = some [("training", JVal.obj [("batch_size", JVal.num v)])] := rfl
  set pd : List (String × JVal) :=
    [("training", JVal.obj [("batch_size", JVal.num v)])] with hpddef
  set core : List (String × JVal) :=
    ("input_features", JVal.arr ifs) :: ("output_features", JVal.arr ofs) ::
      ("combiner", JVal.obj comb) :: ("training", JVal.obj tr) ::
      ("preprocessing", JVal.obj prep) :: extra with hcore
  set X : JVal := JVal.obj (dictSet tr "batch_size" (JVal.num v)) with hX
  set core' : List (String × JVal) :=
    ("input_features", JVal.arr ifs) :: ("output_features", JVal.arr ofs) ::
      ("combiner", JVal.obj comb) :: ("training", X) ::
      ("preprocessing", JVal.obj prep) :: extra with hcore'
  have hg_if : dictGet core "input_features" = some (JVal.arr ifs) :=
    dictGet_cons_self _ _ _
  have hg_of : dictGet core "output_features" = some (JVal.arr ofs) := by
    rw [hcore, dictGet_cons_ne (by decide), dictGet_cons_self]
  have hg_comb : dictGet core "combiner" = some (JVal.obj comb) := by
    rw [hcore, dictGet_cons_ne (by decide), dictGet_cons_ne (by decide),
      dictGet_cons_self]
  have hg_tr : dictGet core "training" = some (JVal.obj tr) := by
    rw [hcore, dictGet_cons_ne (by decide), dictGet_cons_ne (by decide),
      dictGet_cons_ne (by decide), dictGet_cons_self]
  have h1 : substituteFeatures core "input_features" pd = some core :=
    substituteFeatures_noop hg_if
      (fun f hf => setFeatureValues_noop (hif f hf) _)
  have h2 : substituteFeatures core "output_features" pd = some core :=
    substituteFeatures_noop hg_of
      (fun f hf => setFeatureValues_noop (hof f hf) _)
  have h3 : substituteSection core "combiner" pd = some core :=
    substituteSection_noop hg_comb rfl
  have h4 : substituteSection core "training" pd = some (dictSet core "training" X) :=
    substituteSection_training hg_tr v
  have hsetcore : dictSet core "training" X = core' := by
    rw [hcore, dictSet_cons_ne (by decide), dictSet_cons_ne (by decide),
      dictSet_cons_ne (by decide), dictSet_cons_self, hcore']
  have hg_prep' : dictGet core' "preprocessing" = some (JVal.obj prep) := by
    rw [hcore', dictGet_cons_ne (by decide), dictGet_cons_ne (by decide),
      dictGet_cons_ne (by decide), dictGet_cons_ne (by decide), dictGet_cons_self]
  have h5 : substituteSection core' "preprocessing" pd = some core' :=
    substituteSection_noop hg_prep' rfl
  simp only [substitute_parameters, mkModelDef, hpd, Option.some_bind, ← hcore,
    h1, h2, h3, h4, hsetcore, h5, ← hcore']
  rfl

/-- C8: for the configuration whose training section is
`{"batch_size": 32}` inside an otherwise complete model definition (any
input/output features carrying a string name other than `"training"`, any
combiner/preprocessing contents, any extra top-level keys), substituting the
mapping `{"training.batch_size": 64}` yields the same configuration with
`{"batch_size": 64}` as its training section — every other key is left
identical — and applying the same substitution to the result leaves it
unchanged (idempotence). -/
theorem substitute_parameters_training_spec (ifs ofs : List JVal)
    (comb prep extra : List (String × JVal))
    (hif : ∀ f ∈ ifs, FeatureOkFor "training" f)
    (hof : ∀ f ∈ ofs, FeatureOkFor "training" f) :
    substitute_parameters
        (mkModelDef ifs ofs comb [("batch_size", JVal.num 32)] prep extra)
        [("training.batch_size", JVal.num 64)]
      = some (mkModelDef ifs ofs comb [("batch_size", JVal.num 64)] prep extra) ∧
    substitute_parameters
        (mkModelDef ifs ofs comb [("batch_size", JVal.num 64)] prep extra)
        [("training.batch_size", JVal.num 64)]
      = some (mkModelDef ifs ofs comb [("batch_size", JVal.num 64)] prep extra) := by
  constructor
  · have h := substitute_training_batch_size ifs ofs comb
      [("batch_size", JVal.num 32)] prep extra 64 hif hof
    rw [show dictSet [("batch_size", JVal.num 32)] "batch_size" (JVal.num 64)
        = [("batch_size", JVal.num 64)] from rfl] at h
    exact h
  · have h := substitute_training_batch_size ifs ofs comb
      [("batch_size", JVal.num 64)] prep extra 64 hif hof
    rw [show dictSet [("batch_size", JVal.num 64)] "batch_size" (JVal.num 64)
        = [("batch_size", JVal.num 64)] from rfl] at h
    exact h

/-- C8 witness: a concrete complete model definition with one input feature,
one output feature, combiner, preprocessing and an extra top-level key. -/
theorem substitute_parameters_training_spec_witness :
    substitute_parameters
        (mkModelDef [JVal.obj [("name", JVal.str "in1"), ("type", JVal.str "text")]]
          [JVal.obj [("name", JVal.str "out1"), ("type", JVal.str "category")]]
          [("type", JVal.str "concat")] [("batch_size", JVal.num 32)]
          [("force_split", JVal.num 0)] [("extra_key", JVal.num 7)])
        [("training.batch_size", JVal.num 64)]
      = some (mkModelDef
          [JVal.obj [("name", JVal.str "in1"), ("type", JVal.str "text")]]
          [JVal.obj [("name", JVal.str "out1"), ("type", JVal.str "category")]]
          [("type", JVal.str "concat")] [("batch_size", JVal.num 64)]
          [("force_split", JVal.num 0)] [("extra_key", JVal.num 7)]) := by
  have hif : ∀ f ∈ [JVal.obj [("name", JVal.str "in1"), ("type", JVal.str "text")]],
      FeatureOkFor "training" f := by
    intro f hf
    rw [List.mem_singleton] at hf
    subst hf
    exact ⟨[("name", JVal.str "in1"), ("type", JVal.str "text")], "in1",
      rfl, rfl, by decide⟩
  have hof : ∀ f ∈ [JVal.obj [("name", JVal.str "out1"), ("type", JVal.str "category")]],
      FeatureOkFor "training" f := by
    intro f hf
    rw [List.mem_singleton] at hf
    subst hf
    exact ⟨[("name", JVal.str "out1"), ("type", JVal.str "category")], "out1",
      rfl, rfl, by decide⟩
  exact (substitute_parameters_training_spec
    [JVal.obj [("name", JVal.str "in1"), ("type", JVal.str "text")]]
    [JVal.obj [("name", JVal.str "out1"), ("type", JVal.str "category")]]
    [("type", JVal.str "concat")] [("force_split", JVal.num 0)]
    [("extra_key", JVal.num 7)] hif hof).1

/-! ## C1 and C10: parallel executor dispatch loop -/

/-- C1 (code bug evidence): running the parallel executor's dispatch loop on
a strategy holding the two configurations `[0, 1]`, the per-iteration sampled
batches are `[0]` then `[1]`, but the `pool.map` calls receive `[0]` and then
`[0, 1]`: because `hyperopt_parameters` is only initialized once before the
loop and never cleared, the second pool-map call re-dispatches configuration
`0` (already dispatched in the first call) and the final result list carries
its trial twice. -/
theorem parallel_executor_redispatch_bug :
    parallelExecute (fun p : ℕ => p) ⟨[0, 1], 0⟩
        = some { dispatches := [[0], [0, 1]],
                 updateCalls := [[(0, 0)], [(0, 0), (1, 1)]],
                 results := [(0, 0), (0, 0), (1, 1)] } ∧
      StrategyState.sampleBatch (⟨[0, 1], 0⟩ : StrategyState ℕ) 1
        = some ([0], ⟨[0, 1], 1⟩) ∧
      StrategyState.sampleBatch (⟨[0, 1], 1⟩ : StrategyState ℕ) 1
        = some ([1], ⟨[0, 1], 2⟩) := by
  decide

/-- C10 (code bug evidence): with the default `batch_size = 1` each sampled
batch has exactly one configuration, but in the parallel executor the
`update_batch` argument for the second completed trial contains two
`(parameters, metric_score)` tuples — the first trial's observation is fed to
the strategy again — because `pool.map` is called on the accumulated
`hyperopt_parameters` list rather than only the newly sampled batch. -/
theorem parallel_executor_update_accumulation_bug :
    parallelExecute (fun p : ℕ => p + 1) ⟨[5, 7], 0⟩
        = some { dispatches := [[5], [5, 7]],
                 updateCalls := [[(5, 6)], [(5, 6), (7, 8)]],
                 results := [(5, 6), (5, 6), (7, 8)] } ∧
      List.map List.length [[(5, 6)], [(5, 6), (7, 8)]] = [1, 2] := by
  decide
